import Mathlib

/-!
Verification of the AzureAISearchLoadDocuments ingestion pipeline
(`load_products.py`, `load_reports.py`).

The two scripts share the same core logic: read raw records, transform
each into an index document, compute an embedding with an exponential
backoff retry loop, and upload documents to a search index in batches.
This file gives a shallow embedding of that logic and proves the spec's
testable properties about it.

Modelling conventions:
  * Embedding vectors are payloads whose numeric values the pipeline
    never inspects; they are modelled as lists of rationals.
  * The remote embedding endpoint is modelled as a function from the
    call number (0-based) to the call's result: a vector, or an error
    carrying its message string (Python's `str(e)`).
  * The retry condition `"429" in str(e)` is modelled by a substring
    test over the message's character list.
  * `uuid.uuid4()` is modelled by an identifier generator supplied as a
    function from the record's position to a string, so runs are
    parameterised by the generator exactly as the spec's "fixed
    identifier generator" phrasing requires.
  * Side effects (transforming, embedding, uploading, sleeping) are
    recorded as an event trace, so ordering and call-count claims are
    statements about the trace.
-/

/-- Embedding vectors: numeric payloads whose values the pipeline never inspects. -/
abbrev Vec := List Rat

/-- Result of one call to the remote embedding endpoint:
either a vector or a raised error with message `str(e)`. -/
inductive CallResult where
  | ok (v : Vec)
  | err (msg : String)
deriving DecidableEq

/-- Final outcome of `get_embedding`: the vector, the
`RuntimeError("Failed after retries")` (ExhaustedRetries), or an
unclassified error re-raised by `raise e`. -/
inductive Outcome where
  | success (v : Vec)
  | exhaustedRetries
  | raised (msg : String)
deriving DecidableEq

/-- Observable behaviour of one `get_embedding` run: how many endpoint
calls were made, the backoff sleep durations in order, and the outcome. -/
structure RunResult where
  calls : Nat
  sleeps : List Nat
  outcome : Outcome
deriving DecidableEq

/-- Test whether `p` is an initial segment of `l`. -/
def leadsWith : List Char → List Char → Bool
  | [], _ => true
  | _ :: _, [] => false
  | p :: ps, c :: cs => p = c && leadsWith ps cs

/-- Test whether `pat` occurs as a contiguous sublist of the list. -/
def hasSub (pat : List Char) : List Char → Bool
  | [] => leadsWith pat []
  | c :: cs => leadsWith pat (c :: cs) || hasSub pat cs

/-- Model of the Python test `"429" in str(e)`. -/
def has429 (msg : String) : Bool :=
  hasSub "429".data msg.data

/-- The body of `get_embedding`'s loop, from `load_products.py` lines
120-133 (identical in `load_reports.py`).  `attempt` is the loop index
(which also counts the endpoint calls already made) and `remaining` the
iterations left, so the run starts at `attempt = 0`,
`remaining = max_retries`.  Each iteration calls the endpoint once; on a
result it returns; on an error containing "429" it records a sleep of
`2 ^ attempt` seconds and retries; on any other error it re-raises; when
the loop ends it raises `RuntimeError("Failed after retries")`. -/
def getEmbeddingFrom (endpoint : Nat → CallResult) :
    Nat → Nat → List Nat → RunResult
  | attempt, 0, sleeps => ⟨attempt, sleeps, Outcome.exhaustedRetries⟩
  | attempt, remaining + 1, sleeps =>
      match endpoint attempt with
      | CallResult.ok v => ⟨attempt + 1, sleeps, Outcome.success v⟩
      | CallResult.err e =>
          if has429 e then
            getEmbeddingFrom endpoint (attempt + 1) remaining
              (sleeps ++ [2 ^ attempt])
          else
            ⟨attempt + 1, sleeps, Outcome.raised e⟩

/-- Python function `get_embedding(text, max_retries)`.  `max_retries` is an integer as
in Python; `range(max_retries)` is empty for non-positive values, which
`Int.toNat` models. -/
def get_embedding (endpoint : Nat → CallResult) (max_retries : Int) :
    RunResult :=
  getEmbeddingFrom endpoint 0 max_retries.toNat []

/-- An endpoint that rate-limits on the first `n` calls and then
returns `v`; used to exercise the retry loop on concrete inputs. -/
def rateLimitThenOk (n : Nat) (v : Vec) : Nat → CallResult :=
  fun i => if i < n then CallResult.err "HTTP error 429 rate limit" else CallResult.ok v

/-- An endpoint that rate-limits on every call. -/
def alwaysRateLimit : Nat → CallResult :=
  fun _ => CallResult.err "server replied 429"

example : get_embedding (rateLimitThenOk 2 [1]) 5 =
    ⟨3, [1, 2], Outcome.success [1]⟩ := by decide

example : get_embedding alwaysRateLimit 3 =
    ⟨3, [1, 2, 4], Outcome.exhaustedRetries⟩ := by decide

example : get_embedding (fun _ => CallResult.err "boom") 5 =
    ⟨1, [], Outcome.raised "boom"⟩ := by decide

/-- The sleep durations produced by `k` consecutive rate-limited
attempts starting at loop index `attempt`: `2^attempt, 2^(attempt+1), ...`. -/
def backoffs (attempt : Nat) : Nat → List Nat
  | 0 => []
  | k + 1 => 2 ^ attempt :: backoffs (attempt + 1) k

theorem backoffs_eq_map (k : Nat) :
    ∀ a : Nat, backoffs a k = (List.range k).map (fun j => 2 ^ (a + j)) := by
  induction k with
  | zero => intro a; simp [backoffs]
  | succ k ih =>
      intro a
      rw [List.range_succ_eq_map]
      simp only [backoffs, List.map_cons, List.map_map, ih (a + 1)]
      congr 1
      refine List.map_congr_left fun j _ => ?_
      simp only [Function.comp_apply]
      congr 1
      omega

theorem backoffs_zero (k : Nat) :
    backoffs 0 k = (List.range k).map (fun j => 2 ^ j) := by
  rw [backoffs_eq_map]
  exact List.map_congr_left fun j _ => by simp

theorem getEmbeddingFrom_success (endpoint : Nat → CallResult) (v : Vec) :
    ∀ (k attempt remaining : Nat) (sleeps : List Nat),
      (∀ j, j < k → ∃ e, endpoint (attempt + j) = CallResult.err e ∧ has429 e = true) →
      endpoint (attempt + k) = CallResult.ok v →
      k < remaining →
      getEmbeddingFrom endpoint attempt remaining sleeps =
        ⟨attempt + k + 1, sleeps ++ backoffs attempt k, Outcome.success v⟩ := by
  intro k
  induction k with
  | zero =>
      intro attempt remaining sleeps _ hok hlt
      obtain ⟨rem, rfl⟩ := Nat.exists_eq_succ_of_ne_zero (Nat.pos_iff_ne_zero.mp hlt)
      simp only [Nat.add_zero] at hok
      simp [getEmbeddingFrom, hok, backoffs]
  | succ k ih =>
      intro attempt remaining sleeps h429 hok hlt
      obtain ⟨rem, rfl⟩ := Nat.exists_eq_succ_of_ne_zero
        (Nat.pos_iff_ne_zero.mp (Nat.lt_of_le_of_lt (Nat.zero_le _) hlt))
      obtain ⟨e, he, h4⟩ := h429 0 (Nat.succ_pos k)
      simp only [Nat.add_zero] at he
      have step : getEmbeddingFrom endpoint attempt (rem + 1) sleeps =
          getEmbeddingFrom endpoint (attempt + 1) rem (sleeps ++ [2 ^ attempt]) := by
        simp [getEmbeddingFrom, he, h4]
      rw [step, ih (attempt + 1) rem (sleeps ++ [2 ^ attempt])
        (fun j hj => by
          obtain ⟨e', he', h4'⟩ := h429 (j + 1) (by omega)
          exact ⟨e', by rw [show attempt + 1 + j = attempt + (j + 1) by omega]; exact he', h4'⟩)
        (by rw [show attempt + 1 + k = attempt + (k + 1) by omega]; exact hok)
        (by omega)]
      simp only [RunResult.mk.injEq, backoffs, and_true]
      exact ⟨by omega, by simp⟩

theorem getEmbeddingFrom_exhausted (endpoint : Nat → CallResult) :
    ∀ (remaining attempt : Nat) (sleeps : List Nat),
      (∀ j, j < remaining → ∃ e, endpoint (attempt + j) = CallResult.err e ∧ has429 e = true) →
      getEmbeddingFrom endpoint attempt remaining sleeps =
        ⟨attempt + remaining, sleeps ++ backoffs attempt remaining,
         Outcome.exhaustedRetries⟩ := by
  intro remaining
  induction remaining with
  | zero => intro attempt sleeps _; simp [getEmbeddingFrom, backoffs]
  | succ rem ih =>
      intro attempt sleeps h429
      obtain ⟨e, he, h4⟩ := h429 0 (Nat.succ_pos rem)
      simp only [Nat.add_zero] at he
      have step : getEmbeddingFrom endpoint attempt (rem + 1) sleeps =
          getEmbeddingFrom endpoint (attempt + 1) rem (sleeps ++ [2 ^ attempt]) := by
        simp [getEmbeddingFrom, he, h4]
      rw [step, ih (attempt + 1) (sleeps ++ [2 ^ attempt])
        (fun j hj => by
          obtain ⟨e', he', h4'⟩ := h429 (j + 1) (by omega)
          exact ⟨e', by rw [show attempt + 1 + j = attempt + (j + 1) by omega]; exact he', h4'⟩)]
      simp only [RunResult.mk.injEq, backoffs, and_true]
      exact ⟨by omega, by simp⟩

theorem getEmbeddingFrom_raised (endpoint : Nat → CallResult) (e : String) :
    ∀ (k attempt remaining : Nat) (sleeps : List Nat),
      (∀ j, j < k → ∃ e', endpoint (attempt + j) = CallResult.err e' ∧ has429 e' = true) →
      endpoint (attempt + k) = CallResult.err e →
      has429 e = false →
      k < remaining →
      getEmbeddingFrom endpoint attempt remaining sleeps =
        ⟨attempt + k + 1, sleeps ++ backoffs attempt k, Outcome.raised e⟩ := by
  intro k
  induction k with
  | zero =>
      intro attempt remaining sleeps _ herr hne hlt
      obtain ⟨rem, rfl⟩ := Nat.exists_eq_succ_of_ne_zero (Nat.pos_iff_ne_zero.mp hlt)
      simp only [Nat.add_zero] at herr
      simp [getEmbeddingFrom, herr, hne, backoffs]
  | succ k ih =>
      intro attempt remaining sleeps h429 herr hne hlt
      obtain ⟨rem, rfl⟩ := Nat.exists_eq_succ_of_ne_zero
        (Nat.pos_iff_ne_zero.mp (Nat.lt_of_le_of_lt (Nat.zero_le _) hlt))
      obtain ⟨e', he', h4'⟩ := h429 0 (Nat.succ_pos k)
      simp only [Nat.add_zero] at he'
      have step : getEmbeddingFrom endpoint attempt (rem + 1) sleeps =
          getEmbeddingFrom endpoint (attempt + 1) rem (sleeps ++ [2 ^ attempt]) := by
        simp [getEmbeddingFrom, he', h4']
      rw [step, ih (attempt + 1) rem (sleeps ++ [2 ^ attempt])
        (fun j hj => by
          obtain ⟨e'', he'', h4''⟩ := h429 (j + 1) (by omega)
          exact ⟨e'', by rw [show attempt + 1 + j = attempt + (j + 1) by omega]; exact he'', h4''⟩)
        (by rw [show attempt + 1 + k = attempt + (k + 1) by omega]; exact herr)
        hne (by omega)]
      simp only [RunResult.mk.injEq, backoffs, and_true]
      exact ⟨by omega, by simp⟩

/-- An endpoint that rate-limits once and then fails with an
unclassified (non-429) error. -/
def rateLimitThenBoom : Nat → CallResult
  | 0 => CallResult.err "try again 429"
  | _ => CallResult.err "fatal error"

/-- An endpoint that succeeds immediately on every call. -/
def alwaysOk : Nat → CallResult :=
  fun _ => CallResult.ok [1]

/-- C1: for `max_retries = m >= 1`, if the endpoint rate-limits (429) on
its first `N` calls and succeeds on call `N` with `N < m`, then
`get_embedding` returns the vector after exactly `N + 1` endpoint calls,
having slept `2^0, 2^1, ..., 2^(N-1)` seconds between attempts; and for
any endpoint that rate-limits on every call, it fails with the
ExhaustedRetries error after exactly `m` endpoint calls. -/
theorem get_embedding_retry_behaviour (m : Int) (N : Nat)
    (endpoint : Nat → CallResult) (v : Vec)
    (hm : 1 ≤ m) (hN : (N : Int) < m)
    (h429 : ∀ j, j < N → ∃ e, endpoint j = CallResult.err e ∧ has429 e = true)
    (hok : endpoint N = CallResult.ok v) :
    get_embedding endpoint m =
      ⟨N + 1, (List.range N).map (fun j => 2 ^ j), Outcome.success v⟩
    ∧ (∀ ep : Nat → CallResult,
        (∀ i, ∃ e, ep i = CallResult.err e ∧ has429 e = true) →
        get_embedding ep m =
          ⟨m.toNat, (List.range m.toNat).map (fun j => 2 ^ j),
           Outcome.exhaustedRetries⟩)
    ∧ (m.toNat : Int) = m := by
  refine ⟨?_, ?_, by omega⟩
  · rw [get_embedding, getEmbeddingFrom_success endpoint v N 0 m.toNat []
      (fun j hj => by simpa using h429 j hj)
      (by simpa using hok)
      (by omega)]
    simp [backoffs_zero]
  · intro ep hep
    rw [get_embedding, getEmbeddingFrom_exhausted ep m.toNat 0 []
      (fun j _ => by simpa using hep j)]
    simp [backoffs_zero]

theorem get_embedding_retry_behaviour_witness :
    get_embedding (rateLimitThenOk 2 [1]) 5 = ⟨3, [1, 2], Outcome.success [1]⟩
    ∧ get_embedding alwaysRateLimit 5 =
        ⟨5, [1, 2, 4, 8, 16], Outcome.exhaustedRetries⟩ := by
  have h := get_embedding_retry_behaviour 5 2 (rateLimitThenOk 2 [1]) [1]
    (by decide) (by decide)
    (fun j hj =>
      ⟨"HTTP error 429 rate limit", by simp [rateLimitThenOk, hj], by decide⟩)
    (by decide)
  exact ⟨h.1.trans (by decide),
    (h.2.1 alwaysRateLimit
      (fun i => ⟨"server replied 429", rfl, by decide⟩)).trans (by decide)⟩

/-- C2: if the endpoint's first `k` calls rate-limit and call `k` fails
with an error whose message does not contain "429" (with `k` within the
retry budget), `get_embedding` re-raises that error unchanged after
exactly `k + 1` endpoint calls: no further calls, and no sleep beyond
the `k` backoffs already performed for the earlier rate limits. -/
theorem get_embedding_propagates_non429 (m : Int) (k : Nat)
    (endpoint : Nat → CallResult) (e : String)
    (hk : (k : Int) < m)
    (h429 : ∀ j, j < k → ∃ e', endpoint j = CallResult.err e' ∧ has429 e' = true)
    (he : endpoint k = CallResult.err e) (hne : has429 e = false) :
    get_embedding endpoint m =
      ⟨k + 1, (List.range k).map (fun j => 2 ^ j), Outcome.raised e⟩ := by
  rw [get_embedding, getEmbeddingFrom_raised endpoint e k 0 m.toNat []
    (fun j hj => by simpa using h429 j hj)
    (by simpa using he) hne (by omega)]
  simp [backoffs_zero]

theorem get_embedding_propagates_non429_witness :
    get_embedding rateLimitThenBoom 5 = ⟨2, [1], Outcome.raised "fatal error"⟩ := by
  have h := get_embedding_propagates_non429 5 1 rateLimitThenBoom "fatal error"
    (by decide)
    (fun j hj => by
      have hj0 : j = 0 := by omega
      subst hj0
      exact ⟨"try again 429", rfl, by decide⟩)
    rfl (by decide)
  exact h.trans (by decide)

/-- C10: for `max_retries <= 0` the loop `for attempt in range(max_retries)`
never runs, so `get_embedding` makes zero endpoint calls, sleeps never,
and fails immediately with the ExhaustedRetries error — even when the
endpoint would have succeeded. -/
theorem get_embedding_nonpositive_retries (endpoint : Nat → CallResult)
    (m : Int) (hm : m ≤ 0) :
    get_embedding endpoint m = ⟨0, [], Outcome.exhaustedRetries⟩ := by
  have h0 : m.toNat = 0 := by omega
  rw [get_embedding, h0]
  rfl

theorem get_embedding_nonpositive_retries_witness :
    get_embedding alwaysOk (-3) = ⟨0, [], Outcome.exhaustedRetries⟩ :=
  get_embedding_nonpositive_retries alwaysOk (-3) (by decide)

/-- A raw record: the untyped field-name-to-string mapping produced by
`csv.DictReader` / `json.loads`, modelled as an association list (first
binding wins, as in a Python dict built left to right). -/
abbrev RawRecord := List (String × String)

/-- Python dict access `raw_doc.get(key, "")`. -/
def rawGet (raw_doc : RawRecord) (key : String) : String :=
  (raw_doc.lookup key).getD ""

/-- An Azure Search index document as built by `transform_doc` in
`load_products.py` lines 92-114.  `text_vector` is `none` until the
embedding is attached (the Python dict has no such key until then). -/
structure IndexDoc where
  chunk_id : String
  parent_id : String
  main_category : String
  sub_category : String
  chunk : String
  text_vector : Option Vec
deriving DecidableEq

/-- Python function `transform_doc(raw_doc)` from `load_products.py` lines 92-114.
`uuid.uuid4()` is modelled by the supplied `chunk_id`.  The Python
`raw_doc.get("parent_id", "") or ""` maps the empty (falsy) string to
`""`; the chunk text is `f"{title}. "` with the remaining template
lines commented out in the source. -/
def transform_doc (chunk_id : String) (raw_doc : RawRecord) : IndexDoc :=
  let parent_id_raw := rawGet raw_doc "parent_id"
  let parent_id := if parent_id_raw = "" then "" else parent_id_raw
  let title := rawGet raw_doc "name"
  let main_category := rawGet raw_doc "main_category"
  let sub_category := rawGet raw_doc "sub_category"
  let chunk := title ++ ". "
  ⟨chunk_id, parent_id, main_category, sub_category, chunk, none⟩

/-- Assignment `doc["text_vector"] = embedding` (`load_products.py` line 152). -/
def attachEmbedding (doc : IndexDoc) (v : Vec) : IndexDoc :=
  { doc with text_vector := some v }

/-- C5: `transform_doc` synthesizes the chunk as the record's "name"
field followed by ". ", copies `parent_id`, `main_category` and
`sub_category` from the record, defaults every absent field to the
empty string, and never fails: it is total on arbitrary mappings. -/
theorem transform_doc_fields (chunk_id : String) (raw_doc : RawRecord) :
    (transform_doc chunk_id raw_doc).chunk = rawGet raw_doc "name" ++ ". "
    ∧ (transform_doc chunk_id raw_doc).parent_id = rawGet raw_doc "parent_id"
    ∧ (transform_doc chunk_id raw_doc).main_category = rawGet raw_doc "main_category"
    ∧ (transform_doc chunk_id raw_doc).sub_category = rawGet raw_doc "sub_category"
    ∧ (transform_doc chunk_id raw_doc).chunk_id = chunk_id
    ∧ (raw_doc.lookup "name" = none → (transform_doc chunk_id raw_doc).chunk = ". ")
    ∧ (raw_doc.lookup "parent_id" = none → (transform_doc chunk_id raw_doc).parent_id = "")
    ∧ (raw_doc.lookup "main_category" = none → (transform_doc chunk_id raw_doc).main_category = "")
    ∧ (raw_doc.lookup "sub_category" = none → (transform_doc chunk_id raw_doc).sub_category = "") := by
  refine ⟨rfl, ?_, rfl, rfl, rfl, ?_, ?_, ?_, ?_⟩
  · show (if rawGet raw_doc "parent_id" = "" then "" else rawGet raw_doc "parent_id") = _
    by_cases h : rawGet raw_doc "parent_id" = "" <;> simp [h]
  · intro h; show rawGet raw_doc "name" ++ ". " = ". "; simp [rawGet, h]
  · intro h
    show (if rawGet raw_doc "parent_id" = "" then "" else rawGet raw_doc "parent_id") = ""
    simp [rawGet, h]
  · intro h; show rawGet raw_doc "main_category" = ""; simp [rawGet, h]
  · intro h; show rawGet raw_doc "sub_category" = ""; simp [rawGet, h]

theorem transform_doc_fields_witness :
    (transform_doc "id-1" [("name", "A"), ("parent_id", "p1")]).chunk = "A. "
    ∧ (transform_doc "id-1" [("name", "A"), ("parent_id", "p1")]).parent_id = "p1"
    ∧ (transform_doc "id-1" [("name", "A"), ("parent_id", "p1")]).main_category = "" := by
  have h := transform_doc_fields "id-1" [("name", "A"), ("parent_id", "p1")]
  exact ⟨h.1.trans (by decide), (h.2.1).trans (by decide),
    h.2.2.2.2.2.2.2.1 (by decide)⟩

/-- C9: `transform_doc` is deterministic modulo the identifier
generator: with the same identifier it produces identical documents,
and with different identifiers (two runs of `uuid.uuid4()`) the
documents agree on every field except possibly `chunk_id`. -/
theorem transform_doc_deterministic (id1 id2 : String) (raw_doc : RawRecord) :
    ((transform_doc id1 raw_doc).parent_id = (transform_doc id2 raw_doc).parent_id
      ∧ (transform_doc id1 raw_doc).main_category = (transform_doc id2 raw_doc).main_category
      ∧ (transform_doc id1 raw_doc).sub_category = (transform_doc id2 raw_doc).sub_category
      ∧ (transform_doc id1 raw_doc).chunk = (transform_doc id2 raw_doc).chunk
      ∧ (transform_doc id1 raw_doc).text_vector = (transform_doc id2 raw_doc).text_vector)
    ∧ (id1 = id2 → transform_doc id1 raw_doc = transform_doc id2 raw_doc) := by
  exact ⟨⟨rfl, rfl, rfl, rfl, rfl⟩, fun h => by rw [h]⟩

theorem transform_doc_deterministic_witness :
    transform_doc "u1" [("name", "A")] = transform_doc "u1" [("name", "A")]
    ∧ (transform_doc "u1" [("name", "A")]).chunk =
        (transform_doc "u2" [("name", "A")]).chunk :=
  ⟨(transform_doc_deterministic "u1" "u1" [("name", "A")]).2 rfl,
   (transform_doc_deterministic "u1" "u2" [("name", "A")]).1.2.2.2.1⟩

/-- Split a character list on a separator character; `"a,b"` becomes
`["a", "b"]` and the empty input gives one empty field. -/
def splitOnChar (sep : Char) : List Char → List (List Char)
  | [] => [[]]
  | c :: cs =>
      match splitOnChar sep cs with
      | [] => [[c]]
      | h :: t => if c = sep then [] :: h :: t else (c :: h) :: t

/-- The non-blank lines of the blob's decoded text; `csv.DictReader`
skips blank rows, so they never produce a record. -/
def csvLines (content : String) : List (List Char) :=
  (splitOnChar (Char.ofNat 10) content.data).filter (fun l => l ≠ [])

/-- One CSV line split on commas, with `skipinitialspace=True`: spaces
immediately after each delimiter are dropped. -/
def splitCsvLine (line : List Char) : List String :=
  match splitOnChar ',' line with
  | [] => []
  | first :: rest =>
      String.mk first ::
        rest.map (fun f => String.mk (f.dropWhile (fun c => c = ' ')))

/-- The `csv.DictReader` loop of `load_docs_from_blob`
(`load_products.py` lines 70-73): the first line provides the field
names, every following data row becomes one mapping. -/
def csvDictReader (content : String) : List RawRecord :=
  match csvLines content with
  | [] => []
  | header :: rows =>
      rows.map (fun r => (splitCsvLine header).zip (splitCsvLine r))

/-- The number of data rows of a CSV payload: its non-blank lines
excluding the header line. -/
def numDataRows (content : String) : Nat :=
  (csvLines content).length - 1

/-- Python string method `blob_name.endswith(suffix)`. -/
def endsWithS (s suffix : String) : Bool :=
  leadsWith suffix.data.reverse s.data.reverse

/-- The reader's failure: `ValueError(f"Unsupported file format: ...")`
(`load_products.py` line 79). -/
inductive LoadError where
  | unsupportedFormat (blob_name : String)
deriving DecidableEq

/-- Reader `load_docs_from_blob` (`load_products.py` lines 48-84) after the
blob download: dispatches on the blob name's extension.  `json.loads`
is the Python standard library, kept as parameter `json_loads`. -/
def load_docs_from_blob (json_loads : String → List RawRecord)
    (blob_name blob_content : String) : Except LoadError (List RawRecord) :=
  if endsWithS blob_name ".csv" then
    Except.ok (csvDictReader blob_content)
  else if endsWithS blob_name ".json" then
    Except.ok (json_loads blob_content)
  else
    Except.error (LoadError.unsupportedFormat blob_name)

theorem leadsWith_total : ∀ (l p q : List Char),
    leadsWith p l = true → leadsWith q l = true →
    leadsWith p q = true ∨ leadsWith q p = true := by
  intro l
  induction l with
  | nil =>
      intro p q hp hq
      cases p with
      | nil => exact Or.inl rfl
      | cons a as => simp [leadsWith] at hp
  | cons c cs ih =>
      intro p q hp hq
      cases p with
      | nil => exact Or.inl rfl
      | cons a as =>
          cases q with
          | nil => exact Or.inr rfl
          | cons b bs =>
              simp only [leadsWith, Bool.and_eq_true, decide_eq_true_eq] at hp hq
              obtain ⟨rfl, hp'⟩ := hp
              obtain ⟨rfl, hq'⟩ := hq
              rcases ih as bs hp' hq' with h | h
              · exact Or.inl (by simp [leadsWith, h])
              · exact Or.inr (by simp [leadsWith, h])

theorem not_csv_and_json (name : String) :
    endsWithS name ".csv" = true → endsWithS name ".json" = true → False := by
  intro h1 h2
  rcases leadsWith_total name.data.reverse ".csv".data.reverse
    ".json".data.reverse h1 h2 with h | h
  · exact absurd h (by decide)
  · exact absurd h (by decide)

theorem csvDictReader_length (content : String) :
    (csvDictReader content).length = numDataRows content := by
  unfold csvDictReader numDataRows
  cases h : csvLines content with
  | nil => simp
  | cons header rows => simp

/-- C3: the reader dispatches on the blob name: a name ending in ".csv"
yields one mapping per data row (the non-blank lines after the header);
a name ending in ".json" yields exactly the array parsed by
`json.loads`; and the run fails with the UnsupportedFormat error if and
only if the name ends in neither ".csv" nor ".json". -/
theorem load_docs_from_blob_spec (json_loads : String → List RawRecord)
    (name content : String) :
    (endsWithS name ".csv" = true →
      load_docs_from_blob json_loads name content =
        Except.ok (csvDictReader content)
      ∧ (csvDictReader content).length = numDataRows content)
    ∧ (endsWithS name ".json" = true →
      load_docs_from_blob json_loads name content =
        Except.ok (json_loads content))
    ∧ (load_docs_from_blob json_loads name content =
        Except.error (LoadError.unsupportedFormat name)
      ↔ endsWithS name ".csv" = false ∧ endsWithS name ".json" = false) := by
  refine ⟨?_, ?_, ?_⟩
  · intro h
    exact ⟨by simp [load_docs_from_blob, h], csvDictReader_length content⟩
  · intro h
    have hcsv : endsWithS name ".csv" = false := by
      cases hc : endsWithS name ".csv" with
      | false => rfl
      | true => exact absurd (not_csv_and_json name hc h) (by simp)
    simp [load_docs_from_blob, hcsv, h]
  · cases hc : endsWithS name ".csv" with
    | true => simp [load_docs_from_blob, hc]
    | false =>
        cases hj : endsWithS name ".json" with
        | true => simp [load_docs_from_blob, hc, hj]
        | false => simp [load_docs_from_blob, hc, hj]

/-- A stand-in for `json.loads` on a concrete payload. -/
def jsonLoadsSample : String → List RawRecord :=
  fun _ => [[("name", "A")], [("name", "B")]]

/-- A concrete CSV payload: a header line and three data rows. -/
def csvSample : String := "name,parent_id\nA,p1\nB, p2\nC,\n"

theorem load_docs_from_blob_spec_witness :
    load_docs_from_blob jsonLoadsSample "products.csv" csvSample =
      Except.ok (csvDictReader csvSample)
    ∧ (csvDictReader csvSample).length = 3
    ∧ load_docs_from_blob jsonLoadsSample "data.json" csvSample =
        Except.ok (jsonLoadsSample csvSample)
    ∧ load_docs_from_blob jsonLoadsSample "report.pdf" csvSample =
        Except.error (LoadError.unsupportedFormat "report.pdf") := by
  refine ⟨((load_docs_from_blob_spec jsonLoadsSample "products.csv" csvSample).1
      (by decide)).1, ?_, ?_, ?_⟩
  · exact (((load_docs_from_blob_spec jsonLoadsSample "products.csv" csvSample).1
      (by decide)).2).trans (by decide)
  · exact (load_docs_from_blob_spec jsonLoadsSample "data.json" csvSample).2.1
      (by decide)
  · exact (load_docs_from_blob_spec jsonLoadsSample "report.pdf" csvSample).2.2.mpr
      ⟨by decide, by decide⟩

/-- One side effect of the `process_and_upload` loop
(`load_products.py` lines 139-168), in the order it happens:
record `i` is transformed, record `i` is embedded, a batch is sent
with `search_client.upload_documents`, the driver sleeps. -/
inductive Event where
  | transformed (i : Nat)
  | embedded (i : Nat)
  | uploaded (docs : List IndexDoc)
  | slept (secs : Nat)
deriving DecidableEq

/-- The fully processed document for record number `i`: transformed
with the `i`-th generated identifier, then the embedding of its chunk
attached.  `gen` models `uuid.uuid4()`, `embedSvc` a succeeding
embedding service. -/
def mkDoc (gen : Nat → String) (embedSvc : String → Vec)
    (i : Nat) (raw_doc : RawRecord) : IndexDoc :=
  let doc := transform_doc (gen i) raw_doc
  attachEmbedding doc (embedSvc doc.chunk)

/-- The record loop of `process_and_upload` (`load_products.py` lines
143-168): each record is transformed, embedded and appended to the
batch; when the batch reaches `batch_size` it is uploaded, the batch is
reset to `[]` and the driver sleeps 1 second; after the loop any
non-empty leftover batch is uploaded. -/
def process_records (batch_size : Nat) (gen : Nat → String)
    (embedSvc : String → Vec) :
    List RawRecord → Nat → List IndexDoc → List Event
  | [], _, batch => if batch.isEmpty then [] else [Event.uploaded batch]
  | raw_doc :: rest, i, batch =>
      let doc := mkDoc gen embedSvc i raw_doc
      let batch2 := batch ++ [doc]
      if batch_size ≤ batch2.length then
        Event.transformed i :: Event.embedded i :: Event.uploaded batch2 ::
          Event.slept 1 :: process_records batch_size gen embedSvc rest (i + 1) []
      else
        Event.transformed i :: Event.embedded i ::
          process_records batch_size gen embedSvc rest (i + 1) batch2

/-- Driver `process_and_upload(batch_size)` on a given record sequence:
the loop starts with record index 0 and an empty batch. -/
def process_and_upload (batch_size : Nat) (gen : Nat → String)
    (embedSvc : String → Vec) (raw_docs : List RawRecord) : List Event :=
  process_records batch_size gen embedSvc raw_docs 0 []

/-- The successive document lists passed to
`search_client.upload_documents`, in call order. -/
def uploadsOf (events : List Event) : List (List IndexDoc) :=
  events.filterMap (fun e =>
    match e with
    | Event.uploaded docs => some docs
    | _ => none)

/-- The transformed-and-embedded documents of successive records,
numbered from `i`, in input order. -/
def docsFrom (gen : Nat → String) (embedSvc : String → Vec) :
    Nat → List RawRecord → List IndexDoc
  | _, [] => []
  | i, raw_doc :: rest =>
      mkDoc gen embedSvc i raw_doc :: docsFrom gen embedSvc (i + 1) rest

/-- The per-record events of a trace (uploads and sleeps removed). -/
def recEvents (events : List Event) : List Event :=
  events.filter (fun e =>
    match e with
    | Event.transformed _ => true
    | Event.embedded _ => true
    | _ => false)

/-- The strictly sequential per-record schedule: transform record `i`,
then embed record `i`, then move to record `i + 1`. -/
def seqSchedule : Nat → Nat → List Event
  | _, 0 => []
  | i, n + 1 => Event.transformed i :: Event.embedded i :: seqSchedule (i + 1) n

/-- Split a list into consecutive chunks of `size` elements, the last
chunk holding the remainder. -/
def chunkify (size : Nat) : List IndexDoc → List (List IndexDoc)
  | [] => []
  | x :: xs => (x :: xs.take (size - 1)) :: chunkify size (xs.drop (size - 1))
termination_by l => l.length
decreasing_by
  simp only [List.length_drop, List.length_cons]
  omega

/-- The batch contents at the start of each loop iteration and at loop
exit, mirroring `process_records` step for step. -/
def batchStates (batch_size : Nat) (gen : Nat → String)
    (embedSvc : String → Vec) :
    List RawRecord → Nat → List IndexDoc → List (List IndexDoc)
  | [], _, batch => [batch]
  | raw_doc :: rest, i, batch =>
      let doc := mkDoc gen embedSvc i raw_doc
      let batch2 := batch ++ [doc]
      batch ::
        (if batch_size ≤ batch2.length then
          batchStates batch_size gen embedSvc rest (i + 1) []
        else
          batchStates batch_size gen embedSvc rest (i + 1) batch2)

/-- A generator and service for concrete runs. -/
def genSample : Nat → String := fun i => String.mk (List.replicate (i + 1) 'u')

def embedSample : String → Vec := fun _ => [1, 2]

example :
    (uploadsOf (process_and_upload 2 genSample embedSample
      [[("name", "A")], [("name", "B")], [("name", "C")]])).map List.length
      = [2, 1] := by decide

example :
    recEvents (process_and_upload 2 genSample embedSample
      [[("name", "A")], [("name", "B")], [("name", "C")]])
      = seqSchedule 0 3 := by decide

example :
    uploadsOf (process_and_upload 2 genSample embedSample
      [[("name", "A")], [("name", "B")]])
      = [docsFrom genSample embedSample 0 [[("name", "A")], [("name", "B")]]] := by
  decide

theorem chunkify_flatten (size : Nat) :
    ∀ (n : Nat) (l : List IndexDoc), l.length ≤ n →
      (chunkify size l).flatten = l := by
  intro n
  induction n with
  | zero =>
      intro l hl
      have : l = [] := List.length_eq_zero.mp (Nat.le_zero.mp hl)
      subst this
      simp [chunkify]
  | succ n ih =>
      intro l hl
      cases l with
      | nil => simp [chunkify]
      | cons x xs =>
          simp only [List.length_cons] at hl
          rw [chunkify, List.flatten_cons,
            ih (xs.drop (size - 1)) (by simp only [List.length_drop]; omega)]
          simp [List.take_append_drop]

theorem chunkify_map_length (size : Nat) (hsize : 1 ≤ size) :
    ∀ (n : Nat) (l : List IndexDoc), l.length ≤ n →
      (chunkify size l).map List.length =
        List.replicate (l.length / size) size ++
          (if l.length % size = 0 then [] else [l.length % size]) := by
  intro n
  induction n with
  | zero =>
      intro l hl
      have : l = [] := List.length_eq_zero.mp (Nat.le_zero.mp hl)
      subst this
      simp [chunkify]
  | succ n ih =>
      intro l hl
      cases l with
      | nil => simp [chunkify]
      | cons x xs =>
          by_cases hsmall : (x :: xs).length < size
          · have htake : xs.take (size - 1) = xs :=
              List.take_of_length_le (by simp at hsmall; omega)
            have hdrop : xs.drop (size - 1) = [] :=
              List.drop_eq_nil_of_le (by simp at hsmall; omega)
            rw [chunkify, htake, hdrop]
            rw [Nat.div_eq_of_lt hsmall, Nat.mod_eq_of_lt hsmall]
            simp [chunkify]
          · push_neg at hsmall
            have hxs : size - 1 ≤ xs.length := by simp at hsmall; omega
            have hlen1 : (x :: xs.take (size - 1)).length = size := by
              simp [List.length_take]
              omega
            have hlend : (xs.drop (size - 1)).length = (x :: xs).length - size := by
              simp [List.length_drop]
              omega
            simp only [List.length_cons] at hl
            rw [chunkify, List.map_cons, hlen1,
              ih (xs.drop (size - 1)) (by simp only [List.length_drop]; omega)]
            rw [hlend]
            rw [Nat.div_eq_sub_div hsize hsmall, Nat.mod_eq_sub_mod hsmall]
            rw [List.replicate_succ]
            simp

theorem chunkify_cons_of_length (size : Nat) (hsize : 1 ≤ size)
    (l1 l2 : List IndexDoc) (h : l1.length = size) :
    chunkify size (l1 ++ l2) = l1 :: chunkify size l2 := by
  cases l1 with
  | nil => simp at h; omega
  | cons y ys =>
      have hys : ys.length = size - 1 := by simp at h; omega
      have htake : (ys ++ l2).take (size - 1) = ys := by
        rw [List.take_append_eq_append_take, hys.symm,
          List.take_of_length_le (Nat.le_refl ys.length)]
        simp
      have hdrop : (ys ++ l2).drop (size - 1) = l2 := by
        rw [List.drop_append_eq_append_drop, hys.symm,
          List.drop_eq_nil_of_le (Nat.le_refl ys.length)]
        simp
      rw [List.cons_append, chunkify, htake, hdrop]

theorem uploadsOf_nil : uploadsOf [] = [] := rfl

theorem uploadsOf_transformed (i : Nat) (rest : List Event) :
    uploadsOf (Event.transformed i :: rest) = uploadsOf rest := rfl

theorem uploadsOf_embedded (i : Nat) (rest : List Event) :
    uploadsOf (Event.embedded i :: rest) = uploadsOf rest := rfl

theorem uploadsOf_uploaded (docs : List IndexDoc) (rest : List Event) :
    uploadsOf (Event.uploaded docs :: rest) = docs :: uploadsOf rest := rfl

theorem uploadsOf_slept (secs : Nat) (rest : List Event) :
    uploadsOf (Event.slept secs :: rest) = uploadsOf rest := rfl

/-- The batching loop is exactly chunking: starting from a batch that
is below the threshold, the upload calls it makes are the consecutive
`batch_size`-chunks of the pending batch followed by the documents of
the remaining records, in order. -/
theorem uploadsOf_process_records (batch_size : Nat) (gen : Nat → String)
    (embedSvc : String → Vec) (hsize : 1 ≤ batch_size) :
    ∀ (rest : List RawRecord) (i : Nat) (batch : List IndexDoc),
      batch.length < batch_size →
      uploadsOf (process_records batch_size gen embedSvc rest i batch) =
        chunkify batch_size (batch ++ docsFrom gen embedSvc i rest) := by
  intro rest
  induction rest with
  | nil =>
      intro i batch hb
      cases batch with
      | nil => simp [process_records, uploadsOf, docsFrom, chunkify]
      | cons b bs =>
          simp only [List.length_cons] at hb
          rw [process_records]
          simp only [List.isEmpty_cons, docsFrom, List.append_nil]
          rw [chunkify, List.take_of_length_le (by omega),
            List.drop_eq_nil_of_le (by omega)]
          simp [uploadsOf, chunkify]
  | cons raw_doc rest ih =>
      intro i batch hb
      rw [process_records, docsFrom]
      have harr : batch ++ mkDoc gen embedSvc i raw_doc ::
          docsFrom gen embedSvc (i + 1) rest =
          (batch ++ [mkDoc gen embedSvc i raw_doc]) ++
            docsFrom gen embedSvc (i + 1) rest := by
        simp
      by_cases hflush : batch_size ≤ (batch ++ [mkDoc gen embedSvc i raw_doc]).length
      · have hlen : (batch ++ [mkDoc gen embedSvc i raw_doc]).length = batch_size := by
          simp only [List.length_append, List.length_cons, List.length_nil] at hflush ⊢
          omega
        rw [if_pos hflush]
        rw [uploadsOf_transformed, uploadsOf_embedded, uploadsOf_uploaded,
          uploadsOf_slept]
        rw [ih (i + 1) [] (by simp only [List.length_nil]; omega)]
        rw [harr, chunkify_cons_of_length batch_size hsize _ _ hlen]
        simp
      · rw [if_neg hflush]
        rw [uploadsOf_transformed, uploadsOf_embedded]
        rw [ih (i + 1) (batch ++ [mkDoc gen embedSvc i raw_doc])
          (by simp only [List.length_append, List.length_cons, List.length_nil] at hflush ⊢; omega)]
        rw [harr]

theorem docsFrom_length (gen : Nat → String) (embedSvc : String → Vec) :
    ∀ (l : List RawRecord) (i : Nat),
      (docsFrom gen embedSvc i l).length = l.length := by
  intro l
  induction l with
  | nil => intro i; rfl
  | cons r rest ih => intro i; simp [docsFrom, ih (i + 1)]

/-- ceil(n / size) expressed with floor division. -/
theorem ceil_div_eq (size n : Nat) (hsize : 1 ≤ size) :
    n / size + (if n % size = 0 then 0 else 1) = (n + size - 1) / size := by
  obtain ⟨q, r, hr, rfl⟩ : ∃ q r, r < size ∧ n = size * q + r :=
    ⟨n / size, n % size, Nat.mod_lt n (by omega), by
      rw [Nat.div_add_mod]⟩
  have hrmod : (size * q + r) % size = r := by
    rw [Nat.mul_add_mod, Nat.mod_eq_of_lt hr]
  have hrdiv : (size * q + r) / size = q := by
    rw [Nat.mul_add_div (by omega), Nat.div_eq_of_lt hr]
    omega
  rw [hrmod, hrdiv]
  by_cases h0 : r = 0
  · subst h0
    rw [if_pos rfl]
    have : size * q + 0 + size - 1 = size * q + (size - 1) := by omega
    rw [this, Nat.mul_add_div (by omega), Nat.div_eq_of_lt (by omega)]
  · rw [if_neg h0]
    have : size * q + r + size - 1 = size * (q + 1) + (r - 1) := by ring_nf; omega
    rw [this, Nat.mul_add_div (by omega), Nat.div_eq_of_lt (by omega)]

theorem recEvents_nil : recEvents [] = [] := rfl

theorem recEvents_transformed (i : Nat) (rest : List Event) :
    recEvents (Event.transformed i :: rest) =
      Event.transformed i :: recEvents rest := rfl

theorem recEvents_embedded (i : Nat) (rest : List Event) :
    recEvents (Event.embedded i :: rest) =
      Event.embedded i :: recEvents rest := rfl

theorem recEvents_uploaded (docs : List IndexDoc) (rest : List Event) :
    recEvents (Event.uploaded docs :: rest) = recEvents rest := rfl

theorem recEvents_slept (secs : Nat) (rest : List Event) :
    recEvents (Event.slept secs :: rest) = recEvents rest := rfl

/-- The per-record events of any run of the loop are the strictly
sequential schedule, whatever the batch contents. -/
theorem recEvents_process_records (batch_size : Nat) (gen : Nat → String)
    (embedSvc : String → Vec) :
    ∀ (rest : List RawRecord) (i : Nat) (batch : List IndexDoc),
      recEvents (process_records batch_size gen embedSvc rest i batch) =
        seqSchedule i rest.length := by
  intro rest
  induction rest with
  | nil =>
      intro i batch
      by_cases h : batch.isEmpty <;>
        simp [process_records, h, recEvents_nil, recEvents_uploaded, seqSchedule]
  | cons raw_doc rest ih =>
      intro i batch
      rw [process_records]
      by_cases hflush : batch_size ≤ (batch ++ [mkDoc gen embedSvc i raw_doc]).length
      · rw [if_pos hflush, recEvents_transformed, recEvents_embedded,
          recEvents_uploaded, recEvents_slept, ih (i + 1) []]
        rfl
      · rw [if_neg hflush, recEvents_transformed, recEvents_embedded,
          ih (i + 1) (batch ++ [mkDoc gen embedSvc i raw_doc])]
        rfl

/-- Loop invariant: starting below the threshold, the batch is below
the threshold at the start of every iteration and at loop exit. -/
theorem batchStates_lt (batch_size : Nat) (gen : Nat → String)
    (embedSvc : String → Vec) (hsize : 1 ≤ batch_size) :
    ∀ (rest : List RawRecord) (i : Nat) (batch : List IndexDoc),
      batch.length < batch_size →
      ∀ s ∈ batchStates batch_size gen embedSvc rest i batch,
        s.length < batch_size := by
  intro rest
  induction rest with
  | nil =>
      intro i batch hb s hs
      simp only [batchStates, List.mem_singleton] at hs
      subst hs
      exact hb
  | cons raw_doc rest ih =>
      intro i batch hb s hs
      rw [batchStates] at hs
      rcases List.mem_cons.mp hs with rfl | hs'
      · exact hb
      · by_cases hflush : batch_size ≤ (batch ++ [mkDoc gen embedSvc i raw_doc]).length
        · rw [if_pos hflush] at hs'
          exact ih (i + 1) [] (by simp only [List.length_nil]; omega) s hs'
        · rw [if_neg hflush] at hs'
          exact ih (i + 1) (batch ++ [mkDoc gen embedSvc i raw_doc])
            (by omega) s hs'

/-- Every upload call of a run carries at least one and at most
`batch_size` documents. -/
theorem mem_uploads_length (batch_size : Nat) (gen : Nat → String)
    (embedSvc : String → Vec) (raw_docs : List RawRecord)
    (hsize : 1 ≤ batch_size) :
    ∀ u ∈ uploadsOf (process_and_upload batch_size gen embedSvc raw_docs),
      1 ≤ u.length ∧ u.length ≤ batch_size := by
  intro u hu
  rw [process_and_upload, uploadsOf_process_records batch_size gen embedSvc hsize
    raw_docs 0 [] (by simp only [List.length_nil]; omega),
    List.nil_append] at hu
  have hm := List.mem_map_of_mem List.length hu
  rw [chunkify_map_length batch_size hsize
    (docsFrom gen embedSvc 0 raw_docs).length _ (Nat.le_refl _)] at hm
  rcases List.mem_append.mp hm with h | h
  · have := List.eq_of_mem_replicate h
    omega
  · by_cases h0 : (docsFrom gen embedSvc 0 raw_docs).length % batch_size = 0
    · rw [if_pos h0] at h
      simp at h
    · rw [if_neg h0] at h
      simp only [List.mem_singleton] at h
      have hlt : (docsFrom gen embedSvc 0 raw_docs).length % batch_size < batch_size :=
        Nat.mod_lt _ (by omega)
      omega

/-- Every document of `docsFrom` is a transformed record with its
embedding attached. -/
theorem mem_docsFrom (gen : Nat → String) (embedSvc : String → Vec) :
    ∀ (l : List RawRecord) (i : Nat) (d : IndexDoc),
      d ∈ docsFrom gen embedSvc i l →
      ∃ k raw_doc, raw_doc ∈ l ∧ d = mkDoc gen embedSvc k raw_doc := by
  intro l
  induction l with
  | nil => intro i d hd; simp [docsFrom] at hd
  | cons raw_doc rest ih =>
      intro i d hd
      rw [docsFrom] at hd
      rcases List.mem_cons.mp hd with rfl | hd'
      · exact ⟨i, raw_doc, List.mem_cons_self raw_doc rest, rfl⟩
      · obtain ⟨k, rd, hm, he⟩ := ih (i + 1) d hd'
        exact ⟨k, rd, List.mem_cons_of_mem raw_doc hm, he⟩

/-- Five concrete one-field records for exercising the pipeline. -/
def recsSample : List RawRecord :=
  [[("name", "A")], [("name", "B")], [("name", "C")],
   [("name", "D")], [("name", "E")]]

/-- C4: with `n` input records and `batch_size >= 1`, the run makes
exactly `ceil(n / batch_size)` upload calls; the first `n / batch_size`
calls carry exactly `batch_size` documents and, when
`n % batch_size` is non-zero, one final call carries the remaining
`n % batch_size` documents; no upload call ever carries an empty list
(so `n = 0` produces no upload call at all). -/
theorem process_and_upload_batching (batch_size : Nat) (gen : Nat → String)
    (embedSvc : String → Vec) (raw_docs : List RawRecord)
    (hsize : 1 ≤ batch_size) :
    (uploadsOf (process_and_upload batch_size gen embedSvc raw_docs)).map
        List.length =
      List.replicate (raw_docs.length / batch_size) batch_size ++
        (if raw_docs.length % batch_size = 0 then []
         else [raw_docs.length % batch_size])
    ∧ (uploadsOf (process_and_upload batch_size gen embedSvc raw_docs)).length =
        (raw_docs.length + batch_size - 1) / batch_size
    ∧ ∀ u ∈ uploadsOf (process_and_upload batch_size gen embedSvc raw_docs),
        u ≠ [] := by
  have hrw : uploadsOf (process_and_upload batch_size gen embedSvc raw_docs) =
      chunkify batch_size (docsFrom gen embedSvc 0 raw_docs) := by
    rw [process_and_upload, uploadsOf_process_records batch_size gen embedSvc
      hsize raw_docs 0 [] (by simp only [List.length_nil]; omega),
      List.nil_append]
  have hmap : (uploadsOf (process_and_upload batch_size gen embedSvc raw_docs)).map
      List.length =
      List.replicate (raw_docs.length / batch_size) batch_size ++
        (if raw_docs.length % batch_size = 0 then []
         else [raw_docs.length % batch_size]) := by
    rw [hrw, chunkify_map_length batch_size hsize
      (docsFrom gen embedSvc 0 raw_docs).length _ (Nat.le_refl _),
      docsFrom_length]
  refine ⟨hmap, ?_, ?_⟩
  · have hlen := congrArg List.length hmap
    rw [List.length_map] at hlen
    rw [hlen, List.length_append, List.length_replicate,
      ← ceil_div_eq batch_size raw_docs.length hsize]
    by_cases h0 : raw_docs.length % batch_size = 0
    · rw [if_pos h0, if_pos h0]
      rfl
    · rw [if_neg h0, if_neg h0]
      rfl
  · intro u hu hnil
    have hb := mem_uploads_length batch_size gen embedSvc raw_docs hsize u hu
    rw [hnil] at hb
    simp at hb

theorem process_and_upload_batching_witness :
    (uploadsOf (process_and_upload 2 genSample embedSample recsSample)).map
        List.length = [2, 2, 1]
    ∧ (uploadsOf (process_and_upload 2 genSample embedSample recsSample)).length
        = 3 := by
  have h := process_and_upload_batching 2 genSample embedSample recsSample
    (by decide)
  exact ⟨h.1.trans (by decide), h.2.1.trans (by decide)⟩

/-- C6: the driver is strictly sequential and order-preserving: the
concatenation of the successive upload calls' document lists is exactly
the transformed-and-embedded documents in input order, and the
per-record events are the sequential schedule — record `i` is
transformed, then embedded, before record `i + 1` is touched. -/
theorem process_and_upload_sequential (batch_size : Nat) (gen : Nat → String)
    (embedSvc : String → Vec) (raw_docs : List RawRecord)
    (hsize : 1 ≤ batch_size) :
    (uploadsOf (process_and_upload batch_size gen embedSvc raw_docs)).flatten =
      docsFrom gen embedSvc 0 raw_docs
    ∧ recEvents (process_and_upload batch_size gen embedSvc raw_docs) =
        seqSchedule 0 raw_docs.length := by
  constructor
  · rw [process_and_upload, uploadsOf_process_records batch_size gen embedSvc
      hsize raw_docs 0 [] (by simp only [List.length_nil]; omega),
      List.nil_append]
    exact chunkify_flatten batch_size (docsFrom gen embedSvc 0 raw_docs).length
      _ (Nat.le_refl _)
  · exact recEvents_process_records batch_size gen embedSvc raw_docs 0 []

theorem process_and_upload_sequential_witness :
    (uploadsOf (process_and_upload 2 genSample embedSample recsSample)).flatten =
      docsFrom genSample embedSample 0 recsSample
    ∧ recEvents (process_and_upload 2 genSample embedSample recsSample) =
        seqSchedule 0 5 := by
  have h := process_and_upload_sequential 2 genSample embedSample recsSample
    (by decide)
  exact ⟨h.1, h.2.trans (by decide)⟩

/-- C7: batch-size invariant.  With `batch_size >= 1`: the batch is
strictly below `batch_size` at the start of every record iteration and
at loop exit; every upload call carries between 1 and `batch_size`
documents, so the batch never exceeds `batch_size`; and a
threshold-triggered flush continues the loop with the batch reset to
the empty list immediately after the upload and sleep. -/
theorem process_and_upload_batch_invariant (batch_size : Nat)
    (gen : Nat → String) (embedSvc : String → Vec)
    (raw_docs : List RawRecord) (hsize : 1 ≤ batch_size) :
    (∀ s ∈ batchStates batch_size gen embedSvc raw_docs 0 [],
      s.length < batch_size)
    ∧ (∀ u ∈ uploadsOf (process_and_upload batch_size gen embedSvc raw_docs),
        1 ≤ u.length ∧ u.length ≤ batch_size)
    ∧ (∀ (raw_doc : RawRecord) (rest : List RawRecord) (i : Nat)
        (batch : List IndexDoc),
        batch_size ≤ batch.length + 1 →
        process_records batch_size gen embedSvc (raw_doc :: rest) i batch =
          Event.transformed i :: Event.embedded i ::
            Event.uploaded (batch ++ [mkDoc gen embedSvc i raw_doc]) ::
              Event.slept 1 ::
                process_records batch_size gen embedSvc rest (i + 1) []) := by
  refine ⟨batchStates_lt batch_size gen embedSvc hsize raw_docs 0 []
    (by simp only [List.length_nil]; omega),
    mem_uploads_length batch_size gen embedSvc raw_docs hsize, ?_⟩
  intro raw_doc rest i batch hful
  rw [process_records, if_pos (by
    simp only [List.length_append, List.length_cons, List.length_nil]
    omega)]

theorem process_and_upload_batch_invariant_witness :
    process_records 2 genSample embedSample [[("name", "B")]] 1
        [mkDoc genSample embedSample 0 [("name", "A")]] =
      Event.transformed 1 :: Event.embedded 1 ::
        Event.uploaded ([mkDoc genSample embedSample 0 [("name", "A")]] ++
          [mkDoc genSample embedSample 1 [("name", "B")]]) ::
          Event.slept 1 :: process_records 2 genSample embedSample [] 2 [] :=
  (process_and_upload_batch_invariant 2 genSample embedSample recsSample
    (by decide)).2.2 [("name", "B")] [] 1
    [mkDoc genSample embedSample 0 [("name", "A")]] (by decide)

/-- C8: attaching the embedding is the only mutation of a transformed
document: it sets exactly `text_vector` and leaves `chunk_id`,
`parent_id`, `main_category`, `sub_category` and `chunk` unchanged; and
every document of every upload call of a run is exactly some
transformed record with its embedding attached — nothing modifies it
between attachment and upload. -/
theorem attachEmbedding_frame (batch_size : Nat) (gen : Nat → String)
    (embedSvc : String → Vec) (raw_docs : List RawRecord)
    (cid : String) (raw_doc : RawRecord) (v : Vec)
    (hsize : 1 ≤ batch_size) :
    ((attachEmbedding (transform_doc cid raw_doc) v).chunk_id =
        (transform_doc cid raw_doc).chunk_id
      ∧ (attachEmbedding (transform_doc cid raw_doc) v).parent_id =
        (transform_doc cid raw_doc).parent_id
      ∧ (attachEmbedding (transform_doc cid raw_doc) v).main_category =
        (transform_doc cid raw_doc).main_category
      ∧ (attachEmbedding (transform_doc cid raw_doc) v).sub_category =
        (transform_doc cid raw_doc).sub_category
      ∧ (attachEmbedding (transform_doc cid raw_doc) v).chunk =
        (transform_doc cid raw_doc).chunk
      ∧ (attachEmbedding (transform_doc cid raw_doc) v).text_vector = some v)
    ∧ (∀ u ∈ uploadsOf (process_and_upload batch_size gen embedSvc raw_docs),
        ∀ d ∈ u, ∃ k rdoc, rdoc ∈ raw_docs ∧
          d = attachEmbedding (transform_doc (gen k) rdoc)
                (embedSvc (transform_doc (gen k) rdoc).chunk)) := by
  refine ⟨⟨rfl, rfl, rfl, rfl, rfl, rfl⟩, ?_⟩
  intro u hu d hd
  have hflat : d ∈ (uploadsOf
      (process_and_upload batch_size gen embedSvc raw_docs)).flatten :=
    List.mem_flatten.mpr ⟨u, hu, hd⟩
  rw [process_and_upload, uploadsOf_process_records batch_size gen embedSvc
    hsize raw_docs 0 [] (by simp only [List.length_nil]; omega),
    List.nil_append,
    chunkify_flatten batch_size (docsFrom gen embedSvc 0 raw_docs).length
      _ (Nat.le_refl _)] at hflat
  obtain ⟨k, rdoc, hm, he⟩ := mem_docsFrom gen embedSvc raw_docs 0 d hflat
  exact ⟨k, rdoc, hm, he⟩

theorem attachEmbedding_frame_witness :
    (attachEmbedding (transform_doc "u1" [("name", "A")]) [1]).chunk = "A. "
    ∧ (attachEmbedding (transform_doc "u1" [("name", "A")]) [1]).chunk_id = "u1"
    ∧ (attachEmbedding (transform_doc "u1" [("name", "A")]) [1]).text_vector =
        some [1] := by
  have h := attachEmbedding_frame 2 genSample embedSample recsSample
    "u1" [("name", "A")] [1] (by decide)
  exact ⟨(h.1.2.2.2.2.1).trans (by decide),
    (h.1.1).trans (by decide), h.1.2.2.2.2.2⟩
